import Mathlib

/-!
Verification of the `circom-prover` pipeline and draw-count estimator
(`src/circom-prover/src/circom.rs`).

The file has two parts.

* A model of the draw-count estimator `number_of_draws` / `step`
  (circom.rs lines 426-476).  The Rust code computes with `rug::Float`
  arbitrary-precision binary floats at precision `security + 2`; every
  arithmetic operation rounds its exact result to that many significant
  bits, round-to-nearest with ties to even (the MPFR default).  We model
  a float value by the exact rational it denotes, and each operation as
  the exact rational operation followed by `roundQ`, the
  round-to-nearest-even operator at the given precision.  All
  definitions are kernel-computable: rationals are built with `mkRat`
  and compared with the decidable order on `ℚ`.

* A model of the `circom_prove` / `circom_verify` pipeline controllers
  (circom.rs lines 31-54 and 68-322): a straight-line script of
  filesystem / process operations interpreted over an abstract
  filesystem, recording an event trace.  File paths are identified by a
  finite alphabet of constructors, one per concrete path appearing in
  the source.
-/

/-! ### Binary logarithm, structurally computable -/

/-- Fuel-driven floor of the binary logarithm: `natLog2F fuel n` halves `n`
until it drops below `2`, spending one unit of fuel per halving.  Defined
with a bare `Nat.rec` so that the kernel can reduce it lazily on large
numerals. -/
def natLog2F (fuel : ℕ) : ℕ → ℕ :=
  Nat.rec (motive := fun _ => ℕ → ℕ) (fun _ => 0)
    (fun _ ih m => if 2 ≤ m then ih (m / 2) + 1 else 0) fuel

/-- Floor of the binary logarithm of `n` (`natLog2 0 = 0`). `n` itself is
always enough fuel. -/
def natLog2 (n : ℕ) : ℕ := natLog2F n n

/-! ### Round to nearest, ties to even -/

/-- Round a rational to the nearest integer, ties to even
(the MPFR `Round::Nearest` tie-breaking rule). -/
def rne (m : ℚ) : ℤ :=
  let f : ℤ := ⌊m⌋
  let r : ℚ := mkRat (m.num - f * (m.den : ℤ)) m.den
  if r < mkRat 1 2 then f
  else if mkRat 1 2 < r then f + 1
  else if f % 2 = 0 then f else f + 1

/-- Kernel-computable addition on `ℚ` (equal to `+`, see `qAdd_eq`). -/
def qAdd (a b : ℚ) : ℚ := mkRat (a.num * (b.den : ℤ) + b.num * (a.den : ℤ)) (a.den * b.den)

/-- Kernel-computable subtraction on `ℚ` (equal to `-`, see `qSub_eq`). -/
def qSub (a b : ℚ) : ℚ := mkRat (a.num * (b.den : ℤ) - b.num * (a.den : ℤ)) (a.den * b.den)

/-- Kernel-computable multiplication on `ℚ` (equal to `*`, see `qMul_eq`). -/
def qMul (a b : ℚ) : ℚ := mkRat (a.num * b.num) (a.den * b.den)

/-- Kernel-computable inverse on `ℚ` (equal to `⁻¹`, see `qInv_eq`). -/
def qInv (b : ℚ) : ℚ :=
  if b.num < 0 then mkRat (-(b.den : ℤ)) b.num.natAbs else mkRat (b.den : ℤ) b.num.natAbs

/-- Kernel-computable division on `ℚ` (equal to `/`, see `qDiv_eq`). -/
def qDiv (a b : ℚ) : ℚ := qMul a (qInv b)

/-- Kernel-computable integer power of two (equal to `(2 : ℚ) ^ k`). -/
def qPow2 : ℤ → ℚ
  | Int.ofNat m => mkRat (Int.ofNat (2 ^ m)) 1
  | Int.negSucc m => mkRat 1 (2 ^ (m + 1))

/-- Floor of the binary logarithm of a positive rational. -/
def floorLog2 (q : ℚ) : ℤ :=
  let a := q.num.toNat
  let b := q.den
  let k := natLog2 b + 1
  (natLog2 ((a <<< k) / b) : ℤ) - (k : ℤ)

/-- Round a positive rational to `p` significant binary digits,
round-to-nearest with ties to even. -/
def roundPos (p : ℕ) (q : ℚ) : ℚ :=
  let e := floorLog2 q
  let scale := (p : ℤ) - 1 - e
  qMul (mkRat (rne (qMul q (qPow2 scale))) 1) (qPow2 (-scale))

/-- Round a rational to `p` significant binary digits, round-to-nearest,
ties to even: the value computed by any MPFR operation at precision `p`
whose exact result is the argument. -/
def roundQ (p : ℕ) (q : ℚ) : ℚ :=
  if q = 0 then 0 else if q < 0 then -(roundPos p (-q)) else roundPos p q

/-! ### The floating-point operations used by `step` and `number_of_draws`.

Each models one `rug::Float` operation at precision `p`: the exact result
is computed and then rounded to `p` significant bits. -/

/-- `Float::with_val(p, n)` for a machine integer `n`. -/
def flInt (p : ℕ) (n : ℕ) : ℚ := roundQ p (mkRat (Int.ofNat n) 1)

/-- Float addition at precision `p`. -/
def flAdd (p : ℕ) (a b : ℚ) : ℚ := roundQ p (qAdd a b)

/-- Float subtraction at precision `p`. -/
def flSub (p : ℕ) (a b : ℚ) : ℚ := roundQ p (qSub a b)

/-- Float multiplication at precision `p`. -/
def flMul (p : ℕ) (a b : ℚ) : ℚ := roundQ p (qMul a b)

/-- Float division at precision `p`. -/
def flDiv (p : ℕ) (a b : ℚ) : ℚ := roundQ p (qDiv a b)

/-! ### The draw-count estimator (circom.rs lines 426-476) -/

/-- The memo table of `step`: the Rust `HashMap<(u128, u128), Float>`,
modelled as an association list keyed by `(x, n)`. -/
abbrev Memo := List ((ℕ × ℕ) × ℚ)

/-- `step(x, n, memo, num_queries, lde_domain_size, security)`
(circom.rs lines 446-476).  Returns the computed float together with the
updated memo table (the Rust function mutates `memo` in place). -/
def step (x n : ℕ) (memo : Memo) (num_queries lde_domain_size : ℕ) (security : ℕ) :
    ℚ × Memo :=
  let p := security + 2
  match List.lookup (x, n) memo with
  | some v => (v, memo)
  | none =>
    if x = num_queries then
      let num := flInt p 1
      (num, ((x, n), num) :: memo)
    else
      match n with
      | 0 =>
        let num := flInt p 0
        (num, ((x, 0), num) :: memo)
      | Nat.succ m =>
        let r1 := step (x + 1) m memo num_queries lde_domain_size security
        let r2 := step x m r1.2 num_queries lde_domain_size security
        let num :=
          flAdd p
            (flMul p (flDiv p (flInt p (lde_domain_size - x)) (flInt p lde_domain_size)) r1.1)
            (flMul p (flDiv p (flInt p x) (flInt p lde_domain_size)) r2.1)
        (num, ((x, m + 1), num) :: r2.2)

/-- The value computed by `step`, without the memo table: the plain
recurrence over rounded float operations. -/
def stepVal (x n : ℕ) (num_queries lde_domain_size : ℕ) (security : ℕ) : ℚ :=
  let p := security + 2
  if x = num_queries then flInt p 1
  else
    match n with
    | 0 => flInt p 0
    | Nat.succ m =>
      flAdd p
        (flMul p (flDiv p (flInt p (lde_domain_size - x)) (flInt p lde_domain_size))
          (stepVal (x + 1) m num_queries lde_domain_size security))
        (flMul p (flDiv p (flInt p x) (flInt p lde_domain_size))
          (stepVal x m num_queries lde_domain_size security))

/-- One pass of the `while` loop of `number_of_draws` (circom.rs lines
430-441), with explicit fuel: the Rust loop has no bound, so a run that
needs more than `fuel` iterations is modelled as `none`. -/
def number_of_draws_loop (num_queries lde_domain_size security : ℕ) :
    ℕ → ℕ → Option ℕ
  | 0, _ => none
  | Nat.succ fuel, num_draws =>
    let p := security + 2
    let st := (step 0 num_draws [] num_queries lde_domain_size security).1
    if qPow2 (-(security : ℤ)) < flSub p 1 st then
      number_of_draws_loop num_queries lde_domain_size security fuel (num_draws + 1)
    else
      some (num_draws + 1)

/-- `number_of_draws(num_queries, lde_domain_size, security)`
(circom.rs lines 426-444), with explicit fuel bounding the number of
loop iterations. -/
def number_of_draws (num_queries lde_domain_size security : ℕ) (fuel : ℕ) : Option ℕ :=
  number_of_draws_loop num_queries lde_domain_size security fuel 0

/-- The continuation condition of the `while` loop of `number_of_draws`
after the increment: `1 - step(0, n, ..) > 2^(-security)`, evaluated in
precision-`(security+2)` float arithmetic. -/
abbrev drawCondition (q d s n : ℕ) : Prop :=
  qPow2 (-(s : ℤ)) < flSub (s + 2) 1 ((step 0 n [] q d s).1)

/-- `n` is the first index at which the loop condition of
`number_of_draws` fails. -/
abbrev firstFailIndex (q d s n : ℕ) : Prop :=
  ¬drawCondition q d s n ∧ ∀ k < n, drawCondition q d s k

/-- The Rust `number_of_draws` terminates on `(q, d, s)` exactly when some
finite fuel suffices in the model. -/
def numberOfDrawsTerminates (q d s : ℕ) : Prop :=
  ∃ fuel m, number_of_draws q d s fuel = some m

/-- The memo table only stores values of the unmemoized recurrence. -/
def MemoFaithful (memo : Memo) (q d s : ℕ) : Prop :=
  ∀ x n v, List.lookup (x, n) memo = some v → v = stepVal x n q d s

/-! ### The parameter list rendered by `generate_circom_main`
(circom.rs lines 328-421) -/

/-- One value rendered into the argument list of the generated
`Verify(...)` instantiation: either a scalar or (for the FRI tree-depth
slot) an explicit list. -/
inductive RenderedParam where
  | nat (n : ℕ)
  | natList (l : List ℕ)
deriving DecidableEq

/-- The proof-system metadata read by `generate_circom_main` through the
`air` object, the `E : StarkField` type parameter and the
`AIR::PublicInputs` associated constant.  These are values supplied by
the external proof library (winterfell), so each is a plain field here.

Modelled from the spec: the spec (section 4.2) lists exactly these
metadata quantities as the inputs of parameter derivation; the library
computing them is outside this repository. -/
structure AirMetadata where
  twoAdicity : ℕ
  ceBlowupFactor : ℕ
  domainOffset : ℕ
  foldingFactor : ℕ
  grindingFactor : ℕ
  blowupFactor : ℕ
  numAssertions : ℕ
  numQueries : ℕ
  ldeDomainSize : ℕ
  numFriLayers : ℕ
  numPubInputs : ℕ
  numTransitionConstraints : ℕ
  traceLength : ℕ
  traceWidth : ℕ
deriving DecidableEq

/-- The FRI tree-depth slot: the source renders `"[0]"` when the list is
empty and the comma-separated list otherwise (circom.rs lines 339-350). -/
def friTreeDepthsParam (l : List ℕ) : RenderedParam :=
  if l.length = 0 then RenderedParam.natList [0] else RenderedParam.natList l

/-- The ordered argument list rendered by `generate_circom_main`
(circom.rs lines 358-399), one entry per `{}` placeholder, in source
order.  The draw-count slot calls `number_of_draws(num_queries,
lde_domain_size, 128)`; with bounded fuel the whole list is `none` when
that call does not come back.  The final slot is `log2(lde_domain_size)`
(modelled from the spec: the binary logarithm of the evaluation-domain
size; `log2` itself lives in the external math library). -/
def generate_circom_main_params (m : AirMetadata) (friTreeDepths : List ℕ)
    (pubCoinSeedLen : ℕ) (fuel : ℕ) : Option (List RenderedParam) :=
  (number_of_draws m.numQueries m.ldeDomainSize 128 fuel).map (fun nd =>
    [RenderedParam.nat m.twoAdicity,
     RenderedParam.nat m.ceBlowupFactor,
     RenderedParam.nat m.domainOffset,
     RenderedParam.nat m.foldingFactor,
     friTreeDepthsParam friTreeDepths,
     RenderedParam.nat m.grindingFactor,
     RenderedParam.nat m.blowupFactor,
     RenderedParam.nat m.numAssertions,
     RenderedParam.nat nd,
     RenderedParam.nat m.numFriLayers,
     RenderedParam.nat pubCoinSeedLen,
     RenderedParam.nat m.numPubInputs,
     RenderedParam.nat m.numQueries,
     RenderedParam.nat m.numTransitionConstraints,
     RenderedParam.nat m.traceLength,
     RenderedParam.nat m.traceWidth,
     RenderedParam.nat (natLog2 m.ldeDomainSize)])

/-! ### The pipeline controllers (circom.rs lines 31-54 and 68-322)

`circom_prove` and `circom_verify` are straight-line sequences of
filesystem checks, deletions, writes and external-process invocations.
We model each function as a script of operations run by a small
interpreter over an abstract filesystem (a predicate on a finite
alphabet of the concrete paths appearing in the source), recording an
event trace.  The helpers `check_file`, `delete_file`, `delete_directory`
and `command_execution` live in the crate's `utils` module, which is not
part of the sources here.

Modelled from the spec: `check_file` fails with an error naming the file
and a human-readable reason when the file is absent (sections 4.4, 7);
`delete_file` / `delete_directory` remove the entry and never fail
(section 4.4); `command_execution` runs one external process, and a
non-zero exit status is always a stage failure (section 6). -/

/-- The files and directories manipulated by the pipeline, one
constructor per concrete path in the source (`<dir>` abbreviates
`target/circom/<circuit_name>`). -/
inductive FsPath where
  | finalPtau            -- "final.ptau"
  | circomDir            -- "<dir>"
  | inputJson            -- "<dir>/input.json"
  | verifierCircom       -- "<dir>/verifier.circom"
  | verifierR1cs         -- "<dir>/verifier.r1cs"
  | verifierCppDir       -- "<dir>/verifier_cpp"
  | verifierCppExe       -- "<dir>/verifier_cpp/verifier"
  | witnessWtns          -- "<dir>/witness.wtns"
  | verifierZkey         -- "<dir>/verifier.zkey"
  | verificationKeyJson  -- "<dir>/verification_key.json"
  | proofJson            -- "<dir>/proof.json"
  | publicJson           -- "<dir>/public.json"
deriving DecidableEq

/-- The external processes the pipeline can spawn, one constructor per
`command_execution` call site. -/
inductive Exe where
  | circom       -- circom --r1cs --c verifier.circom
  | make         -- make, in verifier_cpp
  | verifierExe  -- the compiled witness generator
  | snarkjsG16s  -- snarkjs g16s (key setup)
  | snarkjsZkev  -- snarkjs zkev (verification-key export)
  | snarkjsG16p  -- snarkjs g16p (proof generation)
  | snarkjsG16v  -- snarkjs g16v (verification)
deriving DecidableEq

/-- Observable filesystem / process events, in the order they happen. -/
inductive Ev where
  | checkEv (f : FsPath)
  | deleteEv (f : FsPath)
  | deleteDirEv (f : FsPath)
  | createDirEv (f : FsPath)
  | writeEv (f : FsPath)
  | execEv (e : Exe)
deriving DecidableEq

/-- The hash functions selectable in winterfell `ProofOptions`. -/
inductive HashFn where
  | Poseidon
  | Blake3_256
  | Sha3_256
deriving DecidableEq

/-- The `WinterCircomError` variants reachable from the modelled code
paths. -/
inductive WinterCircomError where
  | fileNotFound (f : FsPath) (reason : Option String)
  | exeFailed (e : Exe)
  | proverError
  | invalidProof
deriving DecidableEq

/-- Result of running (a prefix of) a pipeline: normal return, an `Err`
return, or a Rust panic (from `assert_eq!`). -/
inductive Outcome where
  | ok
  | err (e : WinterCircomError)
  | panicked
deriving DecidableEq

/-- Pipeline state: which paths exist, plus the event trace so far. -/
structure PState where
  fs : FsPath → Bool
  trace : List Ev

/-- The environment a pipeline run interacts with: the prover's options
and results, the debug-build flag, and the effect of each external
process (exit-status flag together with the filesystem it leaves
behind). -/
structure PipeEnv where
  hashFn : HashFn
  proveOk : Bool
  verifyOk : Bool
  debugAssertions : Bool
  exec : Exe → (FsPath → Bool) → Bool × (FsPath → Bool)

/-- One operation of a pipeline script. -/
inductive PipeOp where
  | assertPoseidon                              -- assert_eq!(hash_fn, Poseidon)
  | buildProof                                  -- prover.prove(trace)
  | verifyProof                                 -- winterfell::verify (debug only)
  | createDir (d : FsPath)                      -- create_dir_all
  | writeFile (f : FsPath)                      -- File::create + write
  | checkFileOp (f : FsPath) (reason : String)  -- check_file
  | deleteFileOp (f : FsPath)                   -- delete_file
  | deleteDirOp (f : FsPath)                    -- delete_directory
  | execOp (e : Exe)                            -- command_execution

/-- Update one path of an abstract filesystem. -/
def setPath (fs : FsPath → Bool) (f : FsPath) (b : Bool) : FsPath → Bool :=
  fun g => if g = f then b else fs g

/-- Interpret one pipeline operation. -/
def runOp (env : PipeEnv) (st : PState) : PipeOp → Outcome × PState
  | PipeOp.assertPoseidon =>
    if env.hashFn = HashFn.Poseidon then (Outcome.ok, st) else (Outcome.panicked, st)
  | PipeOp.buildProof =>
    if env.proveOk then (Outcome.ok, st) else (Outcome.err WinterCircomError.proverError, st)
  | PipeOp.verifyProof =>
    if env.verifyOk then (Outcome.ok, st) else (Outcome.err WinterCircomError.invalidProof, st)
  | PipeOp.createDir d =>
    (Outcome.ok, ⟨setPath st.fs d true, st.trace ++ [Ev.createDirEv d]⟩)
  | PipeOp.writeFile f =>
    (Outcome.ok, ⟨setPath st.fs f true, st.trace ++ [Ev.writeEv f]⟩)
  | PipeOp.checkFileOp f reason =>
    if st.fs f then (Outcome.ok, ⟨st.fs, st.trace ++ [Ev.checkEv f]⟩)
    else (Outcome.err (WinterCircomError.fileNotFound f (some reason)),
          ⟨st.fs, st.trace ++ [Ev.checkEv f]⟩)
  | PipeOp.deleteFileOp f =>
    (Outcome.ok, ⟨setPath st.fs f false, st.trace ++ [Ev.deleteEv f]⟩)
  | PipeOp.deleteDirOp f =>
    (Outcome.ok, ⟨setPath st.fs f false, st.trace ++ [Ev.deleteDirEv f]⟩)
  | PipeOp.execOp e =>
    let r := env.exec e st.fs
    if r.1 then (Outcome.ok, ⟨r.2, st.trace ++ [Ev.execEv e]⟩)
    else (Outcome.err (WinterCircomError.exeFailed e), ⟨r.2, st.trace ++ [Ev.execEv e]⟩)

/-- Run a script left to right, stopping at the first operation that does
not return `ok` (the `?` operator / panic propagation of the source). -/
def runOps (env : PipeEnv) : List PipeOp → PState → Outcome × PState
  | [], st => (Outcome.ok, st)
  | op :: rest, st =>
    match runOp env st op with
    | (Outcome.ok, st') => runOps env rest st'
    | (o, st') => (o, st')

/-- The tail of `circom_prove` after proof construction: JSON output,
Circom code generation, compilation, witness generation, key setup, and
SNARK proof generation, in source order (circom.rs lines 128-299). -/
def circomProveMainOps : List PipeOp :=
  [PipeOp.createDir FsPath.circomDir,
   PipeOp.writeFile FsPath.inputJson,
   PipeOp.writeFile FsPath.verifierCircom,
   PipeOp.deleteFileOp FsPath.verifierR1cs,
   PipeOp.deleteDirOp FsPath.verifierCppDir,
   PipeOp.execOp Exe.circom,
   PipeOp.checkFileOp FsPath.verifierR1cs "circom command must have failed",
   PipeOp.execOp Exe.make,
   PipeOp.checkFileOp FsPath.verifierCppExe "make command must have failed",
   PipeOp.deleteFileOp FsPath.witnessWtns,
   PipeOp.execOp Exe.verifierExe,
   PipeOp.checkFileOp FsPath.witnessWtns "witness generation must have failed",
   PipeOp.deleteFileOp FsPath.verifierZkey,
   PipeOp.checkFileOp FsPath.finalPtau "needed for circuit-specific key generation",
   PipeOp.execOp Exe.snarkjsG16s,
   PipeOp.checkFileOp FsPath.verifierZkey "circuit-specific key generation must have failed",
   PipeOp.deleteFileOp FsPath.verificationKeyJson,
   PipeOp.execOp Exe.snarkjsZkev,
   PipeOp.checkFileOp FsPath.verificationKeyJson "verification key export must have failed",
   PipeOp.deleteFileOp FsPath.proofJson,
   PipeOp.deleteFileOp FsPath.publicJson,
   PipeOp.execOp Exe.snarkjsG16p,
   PipeOp.checkFileOp FsPath.publicJson "proof must have failed",
   PipeOp.checkFileOp FsPath.proofJson "proof must have failed"]

/-- The full `circom_prove` script (circom.rs lines 68-322): the
Poseidon assertion, proof construction, the debug-only self-check, then
the main pipeline. -/
def circomProveOps (debug : Bool) : List PipeOp :=
  PipeOp.assertPoseidon :: PipeOp.buildProof ::
    (if debug then PipeOp.verifyProof :: circomProveMainOps else circomProveMainOps)

/-- `circom_prove` (circom.rs lines 68-322). -/
def circom_prove (env : PipeEnv) (st : PState) : Outcome × PState :=
  runOps env (circomProveOps env.debugAssertions) st

/-- The `circom_verify` script (circom.rs lines 31-54): three
precondition checks, then one snarkjs invocation. -/
def circomVerifyOps : List PipeOp :=
  [PipeOp.checkFileOp FsPath.verificationKeyJson "needed for verification",
   PipeOp.checkFileOp FsPath.publicJson "needed for verification",
   PipeOp.checkFileOp FsPath.proofJson "needed for verification",
   PipeOp.execOp Exe.snarkjsG16v]

/-- `circom_verify` (circom.rs lines 31-54). -/
def circom_verify (env : PipeEnv) (st : PState) : Outcome × PState :=
  runOps env circomVerifyOps st

/-- The events an operation contributes to the trace. -/
def opEvents : PipeOp → List Ev
  | PipeOp.assertPoseidon => []
  | PipeOp.buildProof => []
  | PipeOp.verifyProof => []
  | PipeOp.createDir d => [Ev.createDirEv d]
  | PipeOp.writeFile f => [Ev.writeEv f]
  | PipeOp.checkFileOp f _ => [Ev.checkEv f]
  | PipeOp.deleteFileOp f => [Ev.deleteEv f]
  | PipeOp.deleteDirOp f => [Ev.deleteDirEv f]
  | PipeOp.execOp e => [Ev.execEv e]

/-- In every trace of the script, the filtered subsequence on `{a, b}` is
a prefix of `[a, b]`: `b` can only appear after `a` has appeared. -/
def deletedBeforeExec (tr : List Ev) (a b : Ev) : Prop :=
  (tr.filter (fun e => decide (e = a) || decide (e = b))) <+: [a, b]

/-- A concrete pipeline environment in which every tool succeeds, every
tool's expected output appears, and nothing touches `final.ptau`. -/
def pipeEnvA : PipeEnv :=
  ⟨HashFn.Poseidon, true, true, false,
   fun _ fs => (true, fun pth => if pth = FsPath.finalPtau then fs FsPath.finalPtau else true)⟩

/-- A pipeline environment whose prover options select Blake3 hashing. -/
def pipeEnvB : PipeEnv :=
  ⟨HashFn.Blake3_256, true, true, false, fun _ fs => (true, fs)⟩

/-- The empty starting state: no file exists, nothing has happened. -/
def pstateA : PState := ⟨fun _ => false, []⟩

set_option maxRecDepth 4000

/-! ### Arithmetic lemmas -/

lemma natLog2F_succ (f n : ℕ) :
    natLog2F (f + 1) n = if 2 ≤ n then natLog2F f (n / 2) + 1 else 0 := rfl

lemma natLog2F_correct :
    ∀ fuel n, 1 ≤ n → n ≤ fuel →
      2 ^ natLog2F fuel n ≤ n ∧ n < 2 ^ (natLog2F fuel n + 1) := by
  intro fuel
  induction fuel with
  | zero => intro n h1 h2; omega
  | succ f ih =>
    intro n h1 h2
    rw [natLog2F_succ]
    by_cases h : 2 ≤ n
    · rw [if_pos h]
      obtain ⟨l, u⟩ := ih (n / 2) (by omega) (by omega)
      have e1 : 2 ^ (natLog2F f (n / 2) + 1) = 2 ^ natLog2F f (n / 2) * 2 := pow_succ 2 _
      have e2 : 2 ^ (natLog2F f (n / 2) + 1 + 1) = 2 ^ (natLog2F f (n / 2) + 1) * 2 :=
        pow_succ 2 _
      constructor <;> omega
    · rw [if_neg h]
      constructor <;> simp <;> omega

lemma natLog2_correct (n : ℕ) (h : 1 ≤ n) :
    2 ^ natLog2 n ≤ n ∧ n < 2 ^ (natLog2 n + 1) :=
  natLog2F_correct n n h le_rfl

lemma qAdd_eq (a b : ℚ) : qAdd a b = a + b := by
  have ha : ((a.den : ℚ)) ≠ 0 := Nat.cast_ne_zero.mpr a.den_nz
  have hb : ((b.den : ℚ)) ≠ 0 := Nat.cast_ne_zero.mpr b.den_nz
  rw [qAdd, Rat.mkRat_eq_div]
  conv_rhs => rw [← Rat.num_div_den a, ← Rat.num_div_den b]
  rw [div_add_div _ _ ha hb]
  push_cast
  ring_nf

lemma qSub_eq (a b : ℚ) : qSub a b = a - b := by
  have ha : ((a.den : ℚ)) ≠ 0 := Nat.cast_ne_zero.mpr a.den_nz
  have hb : ((b.den : ℚ)) ≠ 0 := Nat.cast_ne_zero.mpr b.den_nz
  rw [qSub, Rat.mkRat_eq_div]
  conv_rhs => rw [← Rat.num_div_den a, ← Rat.num_div_den b]
  rw [div_sub_div _ _ ha hb]
  push_cast
  ring_nf

lemma qMul_eq (a b : ℚ) : qMul a b = a * b := by
  rw [qMul, Rat.mkRat_eq_div]
  conv_rhs => rw [← Rat.num_div_den a, ← Rat.num_div_den b]
  rw [div_mul_div_comm]
  push_cast
  ring_nf

lemma qInv_eq (b : ℚ) : qInv b = b⁻¹ := by
  have hinv : b⁻¹ = ((b.den : ℚ)) / ((b.num : ℚ)) := by
    conv_lhs => rw [← Rat.num_div_den b]
    rw [inv_div]
  rcases lt_trichotomy b.num 0 with h | h | h
  · rw [qInv, if_pos h, Rat.mkRat_eq_div, hinv]
    have habs : ((b.num.natAbs : ℤ)) = -b.num := Int.ofNat_natAbs_of_nonpos h.le
    rw [show ((b.num.natAbs : ℚ)) = (((b.num.natAbs : ℤ)) : ℚ) from (Int.cast_natCast _).symm,
      habs]
    push_cast
    rw [div_neg, neg_div, neg_neg]
  · have hb : b = 0 := by
      rw [← Rat.num_eq_zero] at *; exact h
    rw [qInv, if_neg (by omega), hb]
    simp [Rat.mkRat_eq_div, h, hb]
  · rw [qInv, if_neg (by omega), Rat.mkRat_eq_div, hinv]
    have habs : ((b.num.natAbs : ℤ)) = b.num := Int.natAbs_of_nonneg h.le
    rw [show ((b.num.natAbs : ℚ)) = (((b.num.natAbs : ℤ)) : ℚ) from (Int.cast_natCast _).symm,
      habs]
    norm_cast

lemma qDiv_eq (a b : ℚ) : qDiv a b = a / b := by
  rw [qDiv, qMul_eq, qInv_eq, div_eq_mul_inv]

lemma mkRat_intCast (z : ℤ) : mkRat z 1 = (z : ℚ) := by
  rw [Rat.mkRat_eq_div]; simp

lemma qPow2_eq : ∀ k : ℤ, qPow2 k = (2 : ℚ) ^ k := by
  intro k
  cases k with
  | ofNat m =>
    rw [qPow2, mkRat_intCast]
    have h1 : (Int.ofNat m : ℤ) = ((m : ℕ) : ℤ) := rfl
    have h2 : (Int.ofNat (2 ^ m) : ℤ) = ((2 ^ m : ℕ) : ℤ) := rfl
    rw [h1, h2, zpow_natCast]
    push_cast
    ring
  | negSucc m =>
    rw [qPow2, Rat.mkRat_eq_div, zpow_negSucc]
    push_cast
    rw [one_div]

lemma qPow2_pos (k : ℤ) : 0 < qPow2 k := by
  rw [qPow2_eq]; exact zpow_pos (by norm_num) k

lemma rne_ge_floor (m : ℚ) : ⌊m⌋ ≤ rne m := by
  rw [rne]
  split_ifs <;> omega

lemma rne_coe (z : ℤ) : rne ((z : ℚ)) = z := by
  rw [rne]
  have h1 : ⌊((z : ℚ))⌋ = z := Int.floor_intCast z
  have h2 : ((z : ℚ)).num = z := Rat.intCast_num z
  have h3 : ((z : ℚ)).den = 1 := Rat.intCast_den z
  rw [h1, h2, h3]
  norm_num

lemma floorLog2_le (q : ℚ) (hq : 0 < q) : (2 : ℚ) ^ floorLog2 q ≤ q := by
  have hnum : 0 < q.num := Rat.num_pos.mpr hq
  have ha : ((q.num.toNat : ℤ)) = q.num := Int.toNat_of_nonneg hnum.le
  have ha1 : 1 ≤ q.num.toNat := by omega
  have hb1 : 1 ≤ q.den := q.pos
  set a := q.num.toNat with hadef
  set b := q.den with hbdef
  set k := natLog2 b + 1 with hkdef
  have hbk : b < 2 ^ k := (natLog2_correct b hb1).2
  have hshift : a <<< k = a * 2 ^ k := Nat.shiftLeft_eq a k
  have hble : b ≤ a * 2 ^ k := le_trans hbk.le (Nat.le_mul_of_pos_left _ (by omega))
  set N := (a <<< k) / b with hNdef
  have hN1 : 1 ≤ N := by
    rw [hNdef, hshift]
    exact (Nat.one_le_div_iff (by omega)).mpr hble
  have hE : 2 ^ natLog2 N ≤ N := (natLog2_correct N hN1).1
  -- cast the division bound into ℚ
  have hcast : ((N : ℚ)) ≤ ((a * 2 ^ k : ℕ) : ℚ) / ((b : ℕ) : ℚ) := by
    rw [hNdef, hshift]
    exact Nat.cast_div_le
  have hkey : (2 : ℚ) ^ (natLog2 N) ≤ ((a : ℚ)) * 2 ^ k / (b : ℚ) := by
    calc (2 : ℚ) ^ (natLog2 N) = ((2 ^ natLog2 N : ℕ) : ℚ) := by push_cast; ring
      _ ≤ ((N : ℚ)) := by exact_mod_cast hE
      _ ≤ ((a * 2 ^ k : ℕ) : ℚ) / ((b : ℕ) : ℚ) := hcast
      _ = ((a : ℚ)) * 2 ^ k / (b : ℚ) := by push_cast; ring
  have hq_eq : q = ((a : ℚ)) / ((b : ℚ)) := by
    conv_lhs => rw [← Rat.num_div_den q]
    rw [← ha]
    push_cast
    rfl
  have hbq : ((b : ℚ)) ≠ 0 := Nat.cast_ne_zero.mpr (by omega)
  have hfinal : (2 : ℚ) ^ ((natLog2 N : ℤ) - (k : ℤ)) ≤ q := by
    rw [hq_eq]
    have e1 : (2 : ℚ) ^ ((natLog2 N : ℤ) - (k : ℤ)) =
        (2 : ℚ) ^ (natLog2 N) / 2 ^ k := by
      rw [zpow_sub₀ (by norm_num : (2 : ℚ) ≠ 0)]
      norm_num [zpow_natCast]
    rw [e1]
    calc (2 : ℚ) ^ (natLog2 N) / 2 ^ k
        ≤ (((a : ℚ)) * 2 ^ k / (b : ℚ)) / 2 ^ k := by gcongr
      _ = ((a : ℚ)) / ((b : ℚ)) := by
          field_simp
          ring
  have hfl : floorLog2 q = (natLog2 N : ℤ) - (k : ℤ) := rfl
  rw [hfl]
  exact hfinal

lemma roundQ_zero (p : ℕ) : roundQ p 0 = 0 := by simp [roundQ]

lemma roundQ_pos (p : ℕ) (q : ℚ) (hp : 1 ≤ p) (hq : 0 < q) : 0 < roundQ p q := by
  rw [roundQ, if_neg hq.ne', if_neg (not_lt.mpr hq.le)]
  rw [roundPos]
  have hm : (1 : ℚ) ≤ qMul q (qPow2 ((p : ℤ) - 1 - floorLog2 q)) := by
    rw [qMul_eq, qPow2_eq]
    have h1 : (2 : ℚ) ^ floorLog2 q ≤ q := floorLog2_le q hq
    have h2 : (2 : ℚ) ^ floorLog2 q * 2 ^ ((p : ℤ) - 1 - floorLog2 q) ≤
        q * 2 ^ ((p : ℤ) - 1 - floorLog2 q) :=
      mul_le_mul_of_nonneg_right h1 (zpow_pos (by norm_num) _).le
    have h3 : (2 : ℚ) ^ floorLog2 q * 2 ^ ((p : ℤ) - 1 - floorLog2 q) =
        (2 : ℚ) ^ ((p : ℤ) - 1) := by
      rw [← zpow_add₀ (by norm_num : (2 : ℚ) ≠ 0)]
      ring_nf
    have h4 : (1 : ℚ) ≤ (2 : ℚ) ^ ((p : ℤ) - 1) := by
      apply one_le_zpow₀
      · norm_num
      · omega
    calc (1 : ℚ) ≤ (2 : ℚ) ^ ((p : ℤ) - 1) := h4
      _ = (2 : ℚ) ^ floorLog2 q * 2 ^ ((p : ℤ) - 1 - floorLog2 q) := h3.symm
      _ ≤ q * 2 ^ ((p : ℤ) - 1 - floorLog2 q) := h2
  have hrne : 1 ≤ rne (qMul q (qPow2 ((p : ℤ) - 1 - floorLog2 q))) := by
    have hfl : (1 : ℤ) ≤ ⌊qMul q (qPow2 ((p : ℤ) - 1 - floorLog2 q))⌋ := by
      rw [Int.le_floor]
      exact_mod_cast hm
    have := rne_ge_floor (qMul q (qPow2 ((p : ℤ) - 1 - floorLog2 q)))
    omega
  rw [qMul_eq, mkRat_intCast]
  have hpos : (0 : ℚ) < ((rne (qMul q (qPow2 ((p : ℤ) - 1 - floorLog2 q))) : ℚ)) := by
    exact_mod_cast hrne
  exact mul_pos hpos (qPow2_pos _)

lemma roundQ_one (p : ℕ) (hp : 1 ≤ p) : roundQ p 1 = 1 := by
  have he : floorLog2 1 = 0 := by decide
  rw [roundQ, if_neg one_ne_zero, if_neg (by norm_num), roundPos, he]
  have hc : (p : ℤ) - 1 - 0 = ((p - 1 : ℕ) : ℤ) := by omega
  have hmul : qMul 1 (qPow2 ((p : ℤ) - 1 - 0)) = ((2 ^ (p - 1) : ℤ) : ℚ) := by
    rw [qMul_eq, one_mul, qPow2_eq, hc, zpow_natCast]
    push_cast
    ring
  rw [hmul, rne_coe, mkRat_intCast, qMul_eq, qPow2_eq]
  rw [show ((2 ^ (p - 1) : ℤ) : ℚ) = (2 : ℚ) ^ ((p : ℤ) - 1 - 0) by
    rw [hc, zpow_natCast]; push_cast; ring]
  rw [← zpow_add₀ (by norm_num : (2 : ℚ) ≠ 0)]
  ring_nf

lemma flInt_zero (p : ℕ) : flInt p 0 = 0 := by
  rw [flInt, show mkRat (Int.ofNat 0) 1 = 0 by decide, roundQ_zero]

lemma flInt_one (p : ℕ) (hp : 1 ≤ p) : flInt p 1 = 1 := by
  rw [flInt, show mkRat (Int.ofNat 1) 1 = 1 by decide, roundQ_one p hp]

lemma flSub_one_one (p : ℕ) : flSub p 1 1 = 0 := by
  rw [flSub, show qSub 1 1 = 0 by rw [qSub_eq]; ring, roundQ_zero]

/-! ### Lemmas about `step`, `stepVal` and the loop -/

lemma stepVal_self (n q d s : ℕ) : stepVal q n q d s = flInt (s + 2) 1 := by
  cases n <;> simp [stepVal]

lemma stepVal_zero (x q d s : ℕ) (hx : x ≠ q) : stepVal x 0 q d s = flInt (s + 2) 0 := by
  simp [stepVal, hx]

lemma stepVal_succ (x m q d s : ℕ) (hx : x ≠ q) :
    stepVal x (m + 1) q d s =
      flAdd (s + 2)
        (flMul (s + 2) (flDiv (s + 2) (flInt (s + 2) (d - x)) (flInt (s + 2) d))
          (stepVal (x + 1) m q d s))
        (flMul (s + 2) (flDiv (s + 2) (flInt (s + 2) x) (flInt (s + 2) d))
          (stepVal x m q d s)) := by
  conv_lhs => rw [stepVal]
  simp [hx]

lemma memoFaithful_nil (q d s : ℕ) : MemoFaithful [] q d s := by
  intro x n v h
  simp [List.lookup] at h

lemma memoFaithful_cons (q d s x n : ℕ) (v : ℚ) (memo : Memo)
    (h : MemoFaithful memo q d s) (hv : v = stepVal x n q d s) :
    MemoFaithful (((x, n), v) :: memo) q d s := by
  intro x' n' w hl
  by_cases hk : (x', n') = (x, n)
  · obtain ⟨hx, hn⟩ := Prod.mk.injEq .. ▸ hk
    subst hx; subst hn
    simp [List.lookup] at hl
    subst hl
    exact hv
  · have hbeq : ((x', n') == (x, n)) = false := beq_eq_false_iff_ne.mpr hk
    simp [List.lookup, hbeq] at hl
    exact h x' n' w hl

lemma step_memo (q d s : ℕ) : ∀ n x memo, MemoFaithful memo q d s →
    (step x n memo q d s).1 = stepVal x n q d s ∧
      MemoFaithful (step x n memo q d s).2 q d s := by
  intro n
  induction n with
  | zero =>
    intro x memo hm
    rw [step]
    cases hl : List.lookup (x, 0) memo with
    | some v =>
      simp only [hl]
      exact ⟨hm x 0 v hl, hm⟩
    | none =>
      simp only [hl]
      by_cases hx : x = q
      · simp only [if_pos hx]
        subst hx
        refine ⟨(stepVal_self 0 x d s).symm, ?_⟩
        exact memoFaithful_cons x d s x 0 _ memo hm (stepVal_self 0 x d s).symm
      · simp only [if_neg hx]
        refine ⟨(stepVal_zero x q d s hx).symm, ?_⟩
        exact memoFaithful_cons q d s x 0 _ memo hm (stepVal_zero x q d s hx).symm
  | succ m ih =>
    intro x memo hm
    rw [step]
    cases hl : List.lookup (x, m + 1) memo with
    | some v =>
      simp only [hl]
      exact ⟨hm x (m + 1) v hl, hm⟩
    | none =>
      simp only [hl]
      by_cases hx : x = q
      · simp only [if_pos hx]
        subst hx
        refine ⟨(stepVal_self (m + 1) x d s).symm, ?_⟩
        exact memoFaithful_cons x d s x (m + 1) _ memo hm (stepVal_self (m + 1) x d s).symm
      · simp only [if_neg hx]
        obtain ⟨ha, hm1⟩ := ih (x + 1) memo hm
        obtain ⟨hb, hm2⟩ := ih x (step (x + 1) m memo q d s).2 hm1
        have hnum :
            flAdd (s + 2)
              (flMul (s + 2) (flDiv (s + 2) (flInt (s + 2) (d - x)) (flInt (s + 2) d))
                (step (x + 1) m memo q d s).1)
              (flMul (s + 2) (flDiv (s + 2) (flInt (s + 2) x) (flInt (s + 2) d))
                (step x m (step (x + 1) m memo q d s).2 q d s).1) =
            stepVal x (m + 1) q d s := by
          rw [ha, hb, stepVal_succ x m q d s hx]
        exact ⟨hnum, memoFaithful_cons q d s x (m + 1) _ _ hm2 hnum⟩

/-- The memoized `step` on an empty memo computes the unmemoized
recurrence. -/
lemma step_eq_stepVal (x n q d s : ℕ) : (step x n [] q d s).1 = stepVal x n q d s :=
  (step_memo q d s n x [] (memoFaithful_nil q d s)).1

lemma number_of_draws_loop_sound (q d s : ℕ) : ∀ fuel nd m,
    number_of_draws_loop q d s fuel nd = some m →
    (∀ k < nd, drawCondition q d s k) →
    nd < m ∧ firstFailIndex q d s (m - 1) := by
  intro fuel
  induction fuel with
  | zero => intro nd m h _; simp [number_of_draws_loop] at h
  | succ f ih =>
    intro nd m h hall
    by_cases hc : drawCondition q d s nd
    · have h' : number_of_draws_loop q d s f (nd + 1) = some m := by
        rw [number_of_draws_loop] at h
        simpa [hc] using h
      have hall' : ∀ k < nd + 1, drawCondition q d s k := by
        intro k hk
        rcases Nat.lt_succ_iff_lt_or_eq.mp hk with hk' | hk'
        · exact hall k hk'
        · subst hk'; exact hc
      obtain ⟨h1, h2⟩ := ih (nd + 1) m h' hall'
      exact ⟨by omega, h2⟩
    · have h' : some (nd + 1) = some m := by
        rw [number_of_draws_loop] at h
        simpa [hc] using h
      obtain rfl : nd + 1 = m := Option.some.inj h'
      refine ⟨by omega, ?_, ?_⟩
      · simpa using hc
      · simpa using hall

lemma number_of_draws_loop_none (q d s : ℕ) (hall : ∀ k, drawCondition q d s k) :
    ∀ fuel nd, number_of_draws_loop q d s fuel nd = none := by
  intro fuel
  induction fuel with
  | zero => intro nd; rfl
  | succ f ih =>
    intro nd
    rw [number_of_draws_loop]
    simpa [hall nd] using ih (nd + 1)

lemma flSub_one_zero (p : ℕ) (hp : 1 ≤ p) : flSub p 1 0 = 1 := by
  rw [flSub, show qSub 1 0 = 1 by rw [qSub_eq]; ring, roundQ_one p hp]

lemma flInt_cast (p : ℕ) (n : ℕ) : flInt p n = roundQ p ((n : ℚ)) := by
  rw [flInt, mkRat_intCast]
  norm_cast

lemma flInt_pos (p : ℕ) (n : ℕ) (hp : 1 ≤ p) (hn : 1 ≤ n) : 0 < flInt p n := by
  rw [flInt_cast]
  exact roundQ_pos p _ hp (by exact_mod_cast hn)

/-- For a single required query (`q = 1`) and a non-trivial domain, the
float recurrence reaches exactly `1` after one draw. -/
lemma stepVal_one_query_succ (d s m : ℕ) (hd : 1 ≤ d) :
    stepVal 0 (m + 1) 1 d s = 1 := by
  have hp : 1 ≤ s + 2 := by omega
  rw [stepVal_succ 0 m 1 d s (by omega)]
  have hD : 0 < flInt (s + 2) d := flInt_pos (s + 2) d hp hd
  have h1 : flDiv (s + 2) (flInt (s + 2) (d - 0)) (flInt (s + 2) d) = 1 := by
    rw [Nat.sub_zero, flDiv, qDiv_eq, div_self hD.ne', roundQ_one _ hp]
  have h2 : stepVal 1 m 1 d s = 1 := by
    rw [stepVal_self m 1 d s, flInt_one _ hp]
  have h3 : flDiv (s + 2) (flInt (s + 2) 0) (flInt (s + 2) d) = 0 := by
    rw [flInt_zero, flDiv, qDiv_eq, zero_div, roundQ_zero]
  rw [h1, h2, h3]
  rw [show flMul (s + 2) 1 1 = 1 by rw [flMul, qMul_eq, mul_one, roundQ_one _ hp]]
  rw [show flMul (s + 2) 0 (stepVal 0 m 1 d s) = 0 by rw [flMul, qMul_eq, zero_mul, roundQ_zero]]
  rw [flAdd, qAdd_eq, add_zero, roundQ_one _ hp]

lemma draws_zero_queries (d s fuel : ℕ) : number_of_draws 0 d s (fuel + 1) = some 1 := by
  have hp : 1 ≤ s + 2 := by omega
  have hst : (step 0 0 [] 0 d s).1 = 1 := by
    rw [step_eq_stepVal, stepVal_self 0 0 d s, flInt_one _ hp]
  have hcond : ¬ drawCondition 0 d s 0 := by
    rw [drawCondition, hst, flSub_one_one]
    exact not_lt.mpr (qPow2_pos _).le
  rw [number_of_draws]
  rw [number_of_draws_loop]
  rw [if_neg hcond]

lemma draws_one_query_s0 (d fuel : ℕ) : number_of_draws 1 d 0 (fuel + 1) = some 1 := by
  have hst : (step 0 0 [] 1 d 0).1 = flInt 2 0 := by
    rw [step_eq_stepVal, stepVal_zero 0 1 d 0 (by omega)]
  have hone : qPow2 (-((0 : ℕ) : ℤ)) = 1 := by
    rw [qPow2_eq]
    norm_num
  have hcond : ¬ drawCondition 1 d 0 0 := by
    rw [drawCondition, hst, flInt_zero, flSub_one_zero 2 (by omega), hone]
    exact lt_irrefl 1
  rw [number_of_draws]
  rw [number_of_draws_loop]
  rw [if_neg hcond]

lemma draws_one_query (d s fuel : ℕ) (hd : 1 ≤ d) (hs : 1 ≤ s) :
    number_of_draws 1 d s (fuel + 2) = some 2 := by
  have hp : 1 ≤ s + 2 := by omega
  have hcond0 : drawCondition 1 d s 0 := by
    rw [drawCondition, step_eq_stepVal, stepVal_zero 0 1 d s (by omega), flInt_zero,
      flSub_one_zero _ hp, qPow2_eq]
    calc (2 : ℚ) ^ (-(s : ℤ)) < (2 : ℚ) ^ (0 : ℤ) := by
          apply zpow_lt_zpow_right₀ (by norm_num)
          omega
      _ = 1 := by norm_num
  have hcond1 : ¬ drawCondition 1 d s 1 := by
    rw [drawCondition, step_eq_stepVal, show (1 : ℕ) = 0 + 1 from rfl,
      stepVal_one_query_succ d s 0 hd, flSub_one_one]
    exact not_lt.mpr (qPow2_pos _).le
  rw [number_of_draws]
  rw [number_of_draws_loop]
  rw [if_pos hcond0]
  rw [number_of_draws_loop]
  rw [if_neg hcond1]

/-! ### Pipeline lemmas -/

lemma runOp_trace (env : PipeEnv) (st : PState) (op : PipeOp) :
    (runOp env st op).2.trace = st.trace ++ opEvents op := by
  cases op <;> simp only [runOp, opEvents] <;> split <;> simp

lemma runOps_trace (env : PipeEnv) : ∀ ops st, ∃ k,
    (runOps env ops st).2.trace = st.trace ++ ((ops.take k).flatMap opEvents) := by
  intro ops
  induction ops with
  | nil => intro st; exact ⟨0, by simp [runOps]⟩
  | cons op rest ih =>
    intro st
    rw [runOps]
    rcases hro : runOp env st op with ⟨o, st'⟩
    have htr : st'.trace = st.trace ++ opEvents op := by
      have h := runOp_trace env st op
      rw [hro] at h
      exact h
    cases o with
    | ok =>
      obtain ⟨k, hk⟩ := ih st'
      exact ⟨k + 1, by
        simp only [List.take_succ_cons, List.flatMap_cons, hk, htr, List.append_assoc]⟩
    | err e =>
      exact ⟨1, by simp [List.take_succ_cons, List.flatMap_cons, htr]⟩
    | panicked =>
      exact ⟨1, by simp [List.take_succ_cons, List.flatMap_cons, htr]⟩

lemma take_flatMap_isPrefix {α β : Type} (l : List α) (f : α → List β) (k : ℕ) :
    ((l.take k).flatMap f) <+: (l.flatMap f) :=
  ⟨(l.drop k).flatMap f, by rw [← List.flatMap_append, List.take_append_drop]⟩


lemma runMainOps_ptau (env : PipeEnv) (st : PState)
    (hc1 : ∀ fs, (env.exec Exe.circom fs).1 = true)
    (hc2 : ∀ fs, (env.exec Exe.circom fs).2 FsPath.verifierR1cs = true)
    (hm1 : ∀ fs, (env.exec Exe.make fs).1 = true)
    (hm2 : ∀ fs, (env.exec Exe.make fs).2 FsPath.verifierCppExe = true)
    (hw1 : ∀ fs, (env.exec Exe.verifierExe fs).1 = true)
    (hw2 : ∀ fs, (env.exec Exe.verifierExe fs).2 FsPath.witnessWtns = true)
    (hpt : ∀ e fs, (env.exec e fs).2 FsPath.finalPtau = fs FsPath.finalPtau)
    (h0 : st.fs FsPath.finalPtau = false) :
    (runOps env circomProveMainOps st).1 =
      Outcome.err (WinterCircomError.fileNotFound FsPath.finalPtau
        (some "needed for circuit-specific key generation")) ∧
    (runOps env circomProveMainOps st).2.trace = st.trace ++
      [Ev.createDirEv FsPath.circomDir, Ev.writeEv FsPath.inputJson,
       Ev.writeEv FsPath.verifierCircom, Ev.deleteEv FsPath.verifierR1cs,
       Ev.deleteDirEv FsPath.verifierCppDir, Ev.execEv Exe.circom,
       Ev.checkEv FsPath.verifierR1cs, Ev.execEv Exe.make,
       Ev.checkEv FsPath.verifierCppExe, Ev.deleteEv FsPath.witnessWtns,
       Ev.execEv Exe.verifierExe, Ev.checkEv FsPath.witnessWtns,
       Ev.deleteEv FsPath.verifierZkey, Ev.checkEv FsPath.finalPtau] := by
  constructor <;>
    simp [circomProveMainOps, runOps, runOp, setPath, hc1, hc2, hm1, hm2, hw1, hw2, hpt, h0]

lemma circom_prove_reduces (env : PipeEnv) (st : PState)
    (hhash : env.hashFn = HashFn.Poseidon) (hprove : env.proveOk = true)
    (hverify : env.verifyOk = true) :
    circom_prove env st = runOps env circomProveMainOps st := by
  cases hdbg : env.debugAssertions <;>
    simp [circom_prove, circomProveOps, hdbg, runOps, runOp, hhash, hprove, hverify]

lemma circom_verify_missing_vk (env : PipeEnv) (st : PState)
    (h : st.fs FsPath.verificationKeyJson = false) :
    circom_verify env st =
      (Outcome.err (WinterCircomError.fileNotFound FsPath.verificationKeyJson
        (some "needed for verification")),
       ⟨st.fs, st.trace ++ [Ev.checkEv FsPath.verificationKeyJson]⟩) := by
  simp [circom_verify, circomVerifyOps, runOps, runOp, h]

lemma circom_verify_missing_public (env : PipeEnv) (st : PState)
    (h1 : st.fs FsPath.verificationKeyJson = true)
    (h2 : st.fs FsPath.publicJson = false) :
    circom_verify env st =
      (Outcome.err (WinterCircomError.fileNotFound FsPath.publicJson
        (some "needed for verification")),
       ⟨st.fs, st.trace ++ [Ev.checkEv FsPath.verificationKeyJson,
                            Ev.checkEv FsPath.publicJson]⟩) := by
  simp [circom_verify, circomVerifyOps, runOps, runOp, h1, h2]

lemma circom_verify_missing_proof (env : PipeEnv) (st : PState)
    (h1 : st.fs FsPath.verificationKeyJson = true)
    (h2 : st.fs FsPath.publicJson = true)
    (h3 : st.fs FsPath.proofJson = false) :
    circom_verify env st =
      (Outcome.err (WinterCircomError.fileNotFound FsPath.proofJson
        (some "needed for verification")),
       ⟨st.fs, st.trace ++ [Ev.checkEv FsPath.verificationKeyJson,
                            Ev.checkEv FsPath.publicJson,
                            Ev.checkEv FsPath.proofJson]⟩) := by
  simp [circom_verify, circomVerifyOps, runOps, runOp, h1, h2, h3]

/-! ### The (5, 5, 1) stall -/

lemma stall_base : ∀ x, x ≤ 5 → stepVal x 10 5 5 1 = stepVal x 9 5 5 1 := by
  intro x hx
  have h := (by decide : ∀ x, x ≤ 5 → (step x 10 [] 5 5 1).1 = (step x 9 [] 5 5 1).1) x hx
  rw [step_eq_stepVal, step_eq_stepVal] at h
  exact h

lemma stall_propagate : ∀ j x, x ≤ 5 → stepVal x (9 + j) 5 5 1 = stepVal x 9 5 5 1 := by
  intro j
  induction j with
  | zero => intro x hx; rfl
  | succ i ih =>
    intro x hx
    by_cases hxq : x = 5
    · subst hxq
      rw [stepVal_self, stepVal_self]
    · have e : 9 + (i + 1) = (9 + i) + 1 := by omega
      rw [e, stepVal_succ x (9 + i) 5 5 1 hxq, ih (x + 1) (by omega), ih x hx,
        ← stepVal_succ x 9 5 5 1 hxq]
      exact stall_base x hx

lemma cond_all_5_5_1 : ∀ n, drawCondition 5 5 1 n := by
  intro n
  by_cases hn : n ≤ 9
  · exact (by decide : ∀ n, n ≤ 9 → drawCondition 5 5 1 n) n hn
  · obtain ⟨j, rfl⟩ : ∃ j, n = 9 + j := ⟨n - 9, by omega⟩
    have hval : (step 0 (9 + j) [] 5 5 1).1 = (step 0 9 [] 5 5 1).1 := by
      rw [step_eq_stepVal, step_eq_stepVal]
      exact stall_propagate j 0 (by omega)
    have h9c : drawCondition 5 5 1 9 := by decide
    rw [drawCondition, hval]
    exact h9c

lemma deletedBeforeExec_of_script (env : PipeEnv) (st : PState) (htr : st.trace = [])
    (a b : Ev)
    (hfull : ∀ dbg : Bool, (((circomProveOps dbg).flatMap opEvents).filter
      (fun e => decide (e = a) || decide (e = b))) = [a, b]) :
    deletedBeforeExec (circom_prove env st).2.trace a b := by
  obtain ⟨k, hk⟩ := runOps_trace env (circomProveOps env.debugAssertions) st
  have hk2 : (circom_prove env st).2.trace =
      ((circomProveOps env.debugAssertions).take k).flatMap opEvents := by
    rw [circom_prove, hk, htr]
    simp
  rw [deletedBeforeExec, hk2]
  have hpre := (take_flatMap_isPrefix (circomProveOps env.debugAssertions) opEvents k).filter
    (fun e => decide (e = a) || decide (e = b))
  rw [hfull env.debugAssertions] at hpre
  exact hpre

/-! ### Claim theorems -/

/-- C1 (counterexample): at `(q, d, s) = (1, 2, 2)` the first index at
which the loop inequality fails is `1`, but `number_of_draws` returns
`2`, not `1` — the function does not return the first failing index
itself. -/
theorem number_of_draws_not_first_fail_cex :
    firstFailIndex 1 2 2 1 ∧ number_of_draws 1 2 2 5 = some 2 ∧ (2 : ℕ) ≠ 1 :=
  ⟨by decide, by decide, by decide⟩

/-- C1 (amended): whenever `number_of_draws(q, d, s)` returns, its result
is `n + 1` where `n` is the first draw count at which the float-evaluated
inequality `1 - P(0, n) > 2^(-s)` fails. -/
theorem number_of_draws_returns_succ_of_first_fail (q d s fuel m : ℕ)
    (h : number_of_draws q d s fuel = some m) :
    1 ≤ m ∧ firstFailIndex q d s (m - 1) := by
  have hs := number_of_draws_loop_sound q d s fuel 0 m h
    (fun k hk => absurd hk (Nat.not_lt_zero k))
  exact ⟨by omega, hs.2⟩

/-- C1 (witness): the amended statement at `(1, 2, 2)`. -/
theorem number_of_draws_returns_succ_of_first_fail_witness :
    number_of_draws 1 2 2 5 = some 2 ∧ firstFailIndex 1 2 2 1 := by
  have h : number_of_draws 1 2 2 5 = some 2 := by decide
  exact ⟨h, (number_of_draws_returns_succ_of_first_fail 1 2 2 5 2 h).2⟩

/-- C6: the two concrete draw counts recorded in the spec:
`number_of_draws(1, 2, 2) = 2` and `number_of_draws(2, 4, 1) = 3`. -/
theorem number_of_draws_concrete_values :
    number_of_draws 1 2 2 5 = some 2 ∧ number_of_draws 2 4 1 5 = some 3 :=
  ⟨by decide, by decide⟩

/-- C7 (counterexample): for `q = 0` the completion condition is already
satisfied at `0` draws (the loop inequality fails at index `0`), yet the
function returns `1`, not the smallest satisfying count `0`. -/
theorem number_of_draws_zero_queries_cex :
    number_of_draws 0 4 3 5 = some 1 ∧ ¬drawCondition 0 4 3 0 ∧ (1 : ℕ) ≠ 0 :=
  ⟨by decide, by decide, by decide⟩

/-- C7 (amended): for `q = 0` the function terminates on its very first
iteration — any positive fuel suffices — and returns `1`, one more than
the smallest draw count satisfying the trivially-true condition. -/
theorem number_of_draws_zero_queries (d s fuel : ℕ) (hfuel : 1 ≤ fuel) :
    number_of_draws 0 d s fuel = some 1 := by
  obtain ⟨f, rfl⟩ : ∃ f, fuel = f + 1 := ⟨fuel - 1, by omega⟩
  exact draws_zero_queries d s f

/-- C7 (witness): the amended statement at `d = 4`, `s = 3`, fuel `1`. -/
theorem number_of_draws_zero_queries_witness :
    number_of_draws 0 4 3 1 = some 1 :=
  number_of_draws_zero_queries 4 3 1 (by decide)

/-- C8 (counterexample): the returned draw count is not monotone in the
security level: at `(q, d) = (7, 15)` the code returns `11` for `s = 1`
but `10` for `s = 2` (raising `s` also raises the working precision,
which changes the rounded probabilities). -/
theorem number_of_draws_not_monotone_cex :
    number_of_draws 7 15 1 20 = some 11 ∧ number_of_draws 7 15 2 20 = some 10 ∧
      ¬(11 : ℕ) ≤ 10 :=
  ⟨by decide, by decide, by decide⟩

/-- C8 (amended): determinism holds by construction (the model is a pure
function of its arguments), and monotonicity in `s` does hold in the
caller-relevant regime `q ≤ 1`. -/
theorem number_of_draws_monotone_small_q (q d s m m2 : ℕ) (hq : q ≤ 1) (hd : 1 ≤ d)
    (h1 : number_of_draws q d s 2 = some m)
    (h2 : number_of_draws q d (s + 1) 2 = some m2) : m ≤ m2 := by
  interval_cases q
  · have e1 := (draws_zero_queries d s 1).symm.trans h1
    have e2 := (draws_zero_queries d (s + 1) 1).symm.trans h2
    simp at e1 e2
    omega
  · cases s with
    | zero =>
      have e1 := (draws_one_query_s0 d 1).symm.trans h1
      have e2 := (draws_one_query d 1 0 hd (by omega)).symm.trans h2
      simp at e1 e2
      omega
    | succ t =>
      have e1 := (draws_one_query d (t + 1) 0 hd (by omega)).symm.trans h1
      have e2 := (draws_one_query d (t + 2) 0 hd (by omega)).symm.trans h2
      simp at e1 e2
      omega

/-- C8 (witness): the amended monotonicity at `q = 1`, `d = 2`, `s = 0`. -/
theorem number_of_draws_monotone_small_q_witness :
    number_of_draws 1 2 0 2 = some 1 ∧ number_of_draws 1 2 1 2 = some 2 ∧ (1 : ℕ) ≤ 2 :=
  ⟨by decide, by decide,
   number_of_draws_monotone_small_q 1 2 0 1 2 (by decide) (by decide) (by decide) (by decide)⟩

/-- C9 (counterexample): `number_of_draws(5, 5, 1)` does not terminate,
although `q = d = 5` satisfies `q ≤ d`: from the tenth iteration on the
rounded probability vector is a fixed point of the float recurrence with
`P(0, n)` stuck at `5/16`, so `1 - P(0, n) > 2^(-1)` holds forever. -/
theorem number_of_draws_divergence_cex : ¬numberOfDrawsTerminates 5 5 1 := by
  rintro ⟨fuel, m, h⟩
  rw [number_of_draws, number_of_draws_loop_none 5 5 1 cond_all_5_5_1 fuel 0] at h
  exact Option.noConfusion h

/-- C9 (amended): termination does hold for `q ≤ 1` (in particular for
`q = 0`), for every domain size `d ≥ 1` and security level. -/
theorem number_of_draws_terminates_small_q (q d s : ℕ) (hq : q ≤ 1) (hd : 1 ≤ d) :
    numberOfDrawsTerminates q d s := by
  interval_cases q
  · exact ⟨2, 1, draws_zero_queries d s 1⟩
  · cases s with
    | zero => exact ⟨2, 1, draws_one_query_s0 d 1⟩
    | succ t => exact ⟨2, 2, draws_one_query d (t + 1) 0 hd (by omega)⟩

/-- C9 (witness): termination at `(1, 3, 4)`. -/
theorem number_of_draws_terminates_small_q_witness : numberOfDrawsTerminates 1 3 4 :=
  number_of_draws_terminates_small_q 1 3 4 (by decide) (by decide)

/-- C3 (counterexample): the function computed by `step` does not satisfy
the exact-arithmetic recurrence: at `q = 2`, `d = 4`, `s = 1` (working
precision 3) the memoized value `P(1, 2)` is `1`, while the exact
right-hand side `((d-1)/d) P(2, 1) + (1/d) P(1, 1) = 15/16` — the final
addition rounds `15/16` up to `1` at precision 3. -/
theorem step_exact_recurrence_cex :
    (step 1 2 [] 2 4 1).1 ≠
      ((4 - 1 : ℚ) / 4) * (step 2 1 [] 2 4 1).1 + ((1 : ℚ) / 4) * (step 1 1 [] 2 4 1).1 := by
  have h1 : (step 1 2 [] 2 4 1).1 = 1 := by decide
  have h2 : (step 2 1 [] 2 4 1).1 = 1 := by decide
  have h3 : (step 1 1 [] 2 4 1).1 = mkRat 3 4 := by decide
  rw [h1, h2, h3, Rat.mkRat_eq_div]
  norm_num

/-- C3 (amended): `step` computes the function satisfying `P(q, n) = 1`,
`P(x, 0) = 0` for `x < q`, and the recurrence
`P(x, n) = ((d-x)/d) P(x+1, n-1) + (x/d) P(x, n-1)` in which every
division, multiplication and addition is a precision-`(s+2)`
round-to-nearest-even float operation; the memoized result equals the
unmemoized recurrence. -/
theorem step_rounded_recurrence (q d s : ℕ) :
    (∀ n, stepVal q n q d s = 1) ∧
    (∀ x, x < q → stepVal x 0 q d s = 0) ∧
    (∀ x n, x < q →
      stepVal x (n + 1) q d s =
        flAdd (s + 2)
          (flMul (s + 2) (flDiv (s + 2) (flInt (s + 2) (d - x)) (flInt (s + 2) d))
            (stepVal (x + 1) n q d s))
          (flMul (s + 2) (flDiv (s + 2) (flInt (s + 2) x) (flInt (s + 2) d))
            (stepVal x n q d s))) ∧
    (∀ x n, (step x n [] q d s).1 = stepVal x n q d s) := by
  refine ⟨?_, ?_, ?_, ?_⟩
  · intro n
    rw [stepVal_self, flInt_one _ (by omega)]
  · intro x hx
    rw [stepVal_zero x q d s (by omega), flInt_zero]
  · intro x n hx
    exact stepVal_succ x n q d s (by omega)
  · intro x n
    exact step_eq_stepVal x n q d s

/-- C3 (witness): the amended statement instantiated at `q = 2`, `d = 4`,
`s = 1`, `x = 1`, `n = 1`. -/
theorem step_rounded_recurrence_witness :
    stepVal 2 3 2 4 1 = 1 ∧ stepVal 1 0 2 4 1 = 0 ∧
    stepVal 1 2 2 4 1 =
      flAdd 3
        (flMul 3 (flDiv 3 (flInt 3 (4 - 1)) (flInt 3 4)) (stepVal 2 1 2 4 1))
        (flMul 3 (flDiv 3 (flInt 3 1) (flInt 3 4)) (stepVal 1 1 2 4 1)) ∧
    (step 1 2 [] 2 4 1).1 = stepVal 1 2 2 4 1 := by
  obtain ⟨h1, h2, h3, h4⟩ := step_rounded_recurrence 2 4 1
  exact ⟨h1 3, h2 1 (by decide), h3 1 1 (by decide), h4 1 2⟩

/-- C2 (counterexample): two metadata values that differ only in the
number of queries (`0` vs `1`, with LDE domain size `1`) produce argument
lists that differ not only at the num_queries slot (index 12) but also at
the derived draw-count slot (index 8): `number_of_draws` is re-derived
from the changed field. -/
theorem generate_circom_main_single_field_cex :
    ((⟨32, 8, 7, 8, 16, 8, 2, 0, 1, 1, 2, 2, 8, 4⟩ : AirMetadata).numQueries ≠
      (⟨32, 8, 7, 8, 16, 8, 2, 1, 1, 1, 2, 2, 8, 4⟩ : AirMetadata).numQueries) ∧
    ((generate_circom_main_params ⟨32, 8, 7, 8, 16, 8, 2, 0, 1, 1, 2, 2, 8, 4⟩ [3] 5 3).bind
        (fun l => l.get? 8) ≠
      (generate_circom_main_params ⟨32, 8, 7, 8, 16, 8, 2, 1, 1, 1, 2, 2, 8, 4⟩ [3] 5 3).bind
        (fun l => l.get? 8)) ∧
    ((generate_circom_main_params ⟨32, 8, 7, 8, 16, 8, 2, 0, 1, 1, 2, 2, 8, 4⟩ [3] 5 3).bind
        (fun l => l.get? 12) ≠
      (generate_circom_main_params ⟨32, 8, 7, 8, 16, 8, 2, 1, 1, 1, 2, 2, 8, 4⟩ [3] 5 3).bind
        (fun l => l.get? 12)) :=
  ⟨by decide, by decide, by decide⟩

/-- C2 (amended): the rendered argument list always has exactly 17
entries, in the fixed source order, and each slot is a function of the
named metadata fields only — in particular the draw-count slot (9th)
depends on the number of queries and the LDE domain size, and the last
slot on the LDE domain size. -/
theorem generate_circom_main_params_shape (m : AirMetadata) (l : List ℕ)
    (c fuel nd : ℕ)
    (h : number_of_draws m.numQueries m.ldeDomainSize 128 fuel = some nd) :
    generate_circom_main_params m l c fuel = some
      [RenderedParam.nat m.twoAdicity,
       RenderedParam.nat m.ceBlowupFactor,
       RenderedParam.nat m.domainOffset,
       RenderedParam.nat m.foldingFactor,
       friTreeDepthsParam l,
       RenderedParam.nat m.grindingFactor,
       RenderedParam.nat m.blowupFactor,
       RenderedParam.nat m.numAssertions,
       RenderedParam.nat nd,
       RenderedParam.nat m.numFriLayers,
       RenderedParam.nat c,
       RenderedParam.nat m.numPubInputs,
       RenderedParam.nat m.numQueries,
       RenderedParam.nat m.numTransitionConstraints,
       RenderedParam.nat m.traceLength,
       RenderedParam.nat m.traceWidth,
       RenderedParam.nat (natLog2 m.ldeDomainSize)] ∧
    ∀ ll, generate_circom_main_params m l c fuel = some ll → ll.length = 17 := by
  constructor
  · rw [generate_circom_main_params, h]
    rfl
  · intro ll hll
    rw [generate_circom_main_params, h] at hll
    obtain rfl := (Option.some.inj hll).symm
    rfl

/-- C2 (witness): the shape statement at a concrete metadata value. -/
theorem generate_circom_main_params_shape_witness :
    generate_circom_main_params (⟨32, 8, 7, 8, 16, 8, 2, 1, 1, 1, 2, 2, 8, 4⟩ : AirMetadata)
        [3] 5 3 = some
      [RenderedParam.nat 32, RenderedParam.nat 8, RenderedParam.nat 7, RenderedParam.nat 8,
       friTreeDepthsParam [3], RenderedParam.nat 16, RenderedParam.nat 8, RenderedParam.nat 2,
       RenderedParam.nat 2, RenderedParam.nat 1, RenderedParam.nat 5, RenderedParam.nat 2,
       RenderedParam.nat 1, RenderedParam.nat 2, RenderedParam.nat 8, RenderedParam.nat 4,
       RenderedParam.nat (natLog2 1)] :=
  (generate_circom_main_params_shape ⟨32, 8, 7, 8, 16, 8, 2, 1, 1, 1, 2, 2, 8, 4⟩ [3] 5 3 2
    (by decide)).1

/-- C10: `circom_prove` panics whenever the prover's options select a
hash function other than Poseidon, before the proof is built and before
any file or directory is touched: the run ends in the `panicked` outcome
with the state (filesystem and event trace) unchanged. -/
theorem circom_prove_panics_on_non_poseidon (env : PipeEnv) (st : PState)
    (h : env.hashFn ≠ HashFn.Poseidon) :
    circom_prove env st = (Outcome.panicked, st) := by
  simp [circom_prove, circomProveOps, runOps, runOp, h]

/-- C10 (witness): the panic at a concrete Blake3 environment. -/
theorem circom_prove_panics_on_non_poseidon_witness :
    circom_prove pipeEnvB pstateA = (Outcome.panicked, pstateA) :=
  circom_prove_panics_on_non_poseidon pipeEnvB pstateA (by decide)

/-- C4: whenever a required precondition file is absent, the pipeline
returns a `fileNotFound` error naming that file, and no external process
is spawned for that stage before the check.  For `circom_verify` the
whole trace consists of the checks only (no `execEv` at all); for
`circom_prove` with `final.ptau` missing, the trace ends at the
`final.ptau` check and contains no snarkjs invocation (hypotheses: the
earlier stages succeed and produce their outputs, and no tool creates
`final.ptau`). -/
theorem missing_precondition_fails_before_spawn :
    (∀ env st, st.fs FsPath.verificationKeyJson = false →
      circom_verify env st =
        (Outcome.err (WinterCircomError.fileNotFound FsPath.verificationKeyJson
          (some "needed for verification")),
         ⟨st.fs, st.trace ++ [Ev.checkEv FsPath.verificationKeyJson]⟩)) ∧
    (∀ env st, st.fs FsPath.verificationKeyJson = true → st.fs FsPath.publicJson = false →
      circom_verify env st =
        (Outcome.err (WinterCircomError.fileNotFound FsPath.publicJson
          (some "needed for verification")),
         ⟨st.fs, st.trace ++ [Ev.checkEv FsPath.verificationKeyJson,
                              Ev.checkEv FsPath.publicJson]⟩)) ∧
    (∀ env st, st.fs FsPath.verificationKeyJson = true → st.fs FsPath.publicJson = true →
      st.fs FsPath.proofJson = false →
      circom_verify env st =
        (Outcome.err (WinterCircomError.fileNotFound FsPath.proofJson
          (some "needed for verification")),
         ⟨st.fs, st.trace ++ [Ev.checkEv FsPath.verificationKeyJson,
                              Ev.checkEv FsPath.publicJson,
                              Ev.checkEv FsPath.proofJson]⟩)) ∧
    (∀ env st, env.hashFn = HashFn.Poseidon → env.proveOk = true → env.verifyOk = true →
      (∀ fs, (env.exec Exe.circom fs).1 = true) →
      (∀ fs, (env.exec Exe.circom fs).2 FsPath.verifierR1cs = true) →
      (∀ fs, (env.exec Exe.make fs).1 = true) →
      (∀ fs, (env.exec Exe.make fs).2 FsPath.verifierCppExe = true) →
      (∀ fs, (env.exec Exe.verifierExe fs).1 = true) →
      (∀ fs, (env.exec Exe.verifierExe fs).2 FsPath.witnessWtns = true) →
      (∀ e fs, (env.exec e fs).2 FsPath.finalPtau = fs FsPath.finalPtau) →
      st.fs FsPath.finalPtau = false →
      (circom_prove env st).1 =
        Outcome.err (WinterCircomError.fileNotFound FsPath.finalPtau
          (some "needed for circuit-specific key generation")) ∧
      (circom_prove env st).2.trace = st.trace ++
        [Ev.createDirEv FsPath.circomDir, Ev.writeEv FsPath.inputJson,
         Ev.writeEv FsPath.verifierCircom, Ev.deleteEv FsPath.verifierR1cs,
         Ev.deleteDirEv FsPath.verifierCppDir, Ev.execEv Exe.circom,
         Ev.checkEv FsPath.verifierR1cs, Ev.execEv Exe.make,
         Ev.checkEv FsPath.verifierCppExe, Ev.deleteEv FsPath.witnessWtns,
         Ev.execEv Exe.verifierExe, Ev.checkEv FsPath.witnessWtns,
         Ev.deleteEv FsPath.verifierZkey, Ev.checkEv FsPath.finalPtau]) := by
  refine ⟨circom_verify_missing_vk, circom_verify_missing_public,
    circom_verify_missing_proof, ?_⟩
  intro env st hhash hprove hverify hc1 hc2 hm1 hm2 hw1 hw2 hpt h0
  rw [circom_prove_reduces env st hhash hprove hverify]
  exact runMainOps_ptau env st hc1 hc2 hm1 hm2 hw1 hw2 hpt h0

/-- C4 (witness): the missing-`verification_key.json` case of
`circom_verify` and the missing-`final.ptau` case of `circom_prove`, in
the concrete all-tools-succeed environment over an empty filesystem. -/
theorem missing_precondition_fails_before_spawn_witness :
    circom_verify pipeEnvA pstateA =
      (Outcome.err (WinterCircomError.fileNotFound FsPath.verificationKeyJson
        (some "needed for verification")),
       ⟨pstateA.fs, [Ev.checkEv FsPath.verificationKeyJson]⟩) ∧
    (circom_prove pipeEnvA pstateA).1 =
      Outcome.err (WinterCircomError.fileNotFound FsPath.finalPtau
        (some "needed for circuit-specific key generation")) := by
  obtain ⟨t1, _, _, t4⟩ := missing_precondition_fails_before_spawn
  refine ⟨t1 pipeEnvA pstateA rfl, ?_⟩
  exact (t4 pipeEnvA pstateA rfl rfl rfl (fun _ => rfl) (fun _ => rfl) (fun _ => rfl)
    (fun _ => rfl) (fun _ => rfl) (fun _ => rfl) (fun _ _ => rfl) rfl).1

/-- C5: in every run of `circom_prove`, each stage's stale output is
deleted before that stage's external process is invoked: on the trace,
restricted to the deletion event and the process event of a stage, the
deletion always comes first (the filtered trace is a prefix of
`[delete, exec]`).  Stages: `verifier.r1cs` and `verifier_cpp` before
circom, `witness.wtns` before the witness generator, `verifier.zkey`
before key setup, `verification_key.json` before key export, and
`proof.json` / `public.json` before proof generation. -/
theorem stale_outputs_deleted_before_exec (env : PipeEnv) (st : PState)
    (htr : st.trace = []) :
    deletedBeforeExec (circom_prove env st).2.trace
      (Ev.deleteEv FsPath.verifierR1cs) (Ev.execEv Exe.circom) ∧
    deletedBeforeExec (circom_prove env st).2.trace
      (Ev.deleteDirEv FsPath.verifierCppDir) (Ev.execEv Exe.circom) ∧
    deletedBeforeExec (circom_prove env st).2.trace
      (Ev.deleteEv FsPath.witnessWtns) (Ev.execEv Exe.verifierExe) ∧
    deletedBeforeExec (circom_prove env st).2.trace
      (Ev.deleteEv FsPath.verifierZkey) (Ev.execEv Exe.snarkjsG16s) ∧
    deletedBeforeExec (circom_prove env st).2.trace
      (Ev.deleteEv FsPath.verificationKeyJson) (Ev.execEv Exe.snarkjsZkev) ∧
    deletedBeforeExec (circom_prove env st).2.trace
      (Ev.deleteEv FsPath.proofJson) (Ev.execEv Exe.snarkjsG16p) ∧
    deletedBeforeExec (circom_prove env st).2.trace
      (Ev.deleteEv FsPath.publicJson) (Ev.execEv Exe.snarkjsG16p) := by
  refine ⟨?_, ?_, ?_, ?_, ?_, ?_, ?_⟩ <;>
    exact deletedBeforeExec_of_script env st htr _ _
      (by intro dbg; cases dbg <;> decide)

/-- C5 (witness): the `verifier.r1cs`-before-circom ordering in the
concrete all-tools-succeed environment over an empty filesystem. -/
theorem stale_outputs_deleted_before_exec_witness :
    deletedBeforeExec (circom_prove pipeEnvA pstateA).2.trace
      (Ev.deleteEv FsPath.verifierR1cs) (Ev.execEv Exe.circom) :=
  (stale_outputs_deleted_before_exec pipeEnvA pstateA rfl).1
